import Mathlib

/-!
Verification development for monocryst.py (gosam: generator of simple
atomistic models).  The geometric core of the program is shallowly
embedded below: exact rationals stand for the Python floating point
values, numpy row-vector conventions are kept, and the external
collaborators that live in other modules of the repository (graingen,
mdprim) are modelled from the specification where noted.
-/

namespace Monocryst

/-- Cartesian 3-vector; coordinates are modelled as exact rationals. -/
structure Vec3 where
  x : ℚ
  y : ℚ
  z : ℚ
deriving DecidableEq

/-- Componentwise vector sum (numpy array addition `abs_pos+atom.pos`). -/
def vecAdd (a b : Vec3) : Vec3 := ⟨a.x + b.x, a.y + b.y, a.z + b.z⟩

/-- Row-major 3 by 3 matrix. -/
structure Mat3 where
  r0 : Vec3
  r1 : Vec3
  r2 : Vec3
deriving DecidableEq

/-- numpy `dot(v, M)` for a 1-d vector `v`: `v` acts as a row vector. -/
def vecMulMat (v : Vec3) (m : Mat3) : Vec3 :=
  ⟨v.x * m.r0.x + v.y * m.r1.x + v.z * m.r2.x,
   v.x * m.r0.y + v.y * m.r1.y + v.z * m.r2.y,
   v.x * m.r0.z + v.y * m.r1.z + v.z * m.r2.z⟩

/-- Matrix product; row i of the result is row i of `a` times `b`. -/
def matMul (a b : Mat3) : Mat3 := ⟨vecMulMat a.r0 b, vecMulMat a.r1 b, vecMulMat a.r2 b⟩

/-- Matrix transpose. -/
def matTranspose (a : Mat3) : Mat3 :=
  ⟨⟨a.r0.x, a.r1.x, a.r2.x⟩, ⟨a.r0.y, a.r1.y, a.r2.y⟩, ⟨a.r0.z, a.r1.z, a.r2.z⟩⟩

/-- Identity matrix (numpy `identity(3)`). -/
def matId : Mat3 := ⟨⟨1, 0, 0⟩, ⟨0, 1, 0⟩, ⟨0, 0, 1⟩⟩

/-- Atom belonging to a lattice node: species name and offset
(the `atom` objects iterated in `node.atoms_in_node`). -/
structure AtomInNode where
  name : String
  pos : Vec3
deriving DecidableEq

/-- Lattice node as consumed by `_do_gen_atoms`: it carries its atom list
`atoms_in_node`.  The node position is not read there; the absolute node
position comes paired with the node from the scope collaborator. -/
structure Node where
  atoms_in_node : List AtomInNode
deriving DecidableEq

/-- Output atom (`mdprim.Atom(atom.name, xyz)`): species name and the
box-frame position that the containment test accepted. -/
structure Atom where
  name : String
  pos : Vec3
deriving DecidableEq

/-- numpy `(vmin < xyz).all()`: strictly less on every axis. -/
def all_lt (a b : Vec3) : Prop := a.x < b.x ∧ a.y < b.y ∧ a.z < b.z

/-- numpy `(xyz <= vmax).all()`: less or equal on every axis. -/
def all_le (a b : Vec3) : Prop := a.x ≤ b.x ∧ a.y ≤ b.y ∧ a.z ≤ b.z

/-- Containment test of `OrthorhombicPbcModel._do_gen_atoms`, line 100:
`(vmin < xyz).all() and (xyz <= vmax).all()`. -/
def in_box (vmin vmax xyz : Vec3) : Prop := all_lt vmin xyz ∧ all_le xyz vmax

instance (a b : Vec3) : Decidable (all_lt a b) := by unfold all_lt; exact inferInstance

instance (a b : Vec3) : Decidable (all_le a b) := by unfold all_le; exact inferInstance

instance (a b c : Vec3) : Decidable (in_box a b c) := by unfold in_box; exact inferInstance

/-- The asymmetry constant `eps = 0.001` of `get_box_to_fill`, line 129. -/
def eps : ℚ := 1 / 1000

/-- RotatedMonocrystal.get_box_to_fill, lines 127-141.  The Python
argument `upper` ranges over True, False and None (the method asserts
exactly that), modelled as `Option Bool`; the Python guard
`if z_margin:` is true exactly when `z_margin` is nonzero.  The method
reads `self.dim`, passed here as the `dim` argument. -/
def get_box_to_fill (dim : Vec3) (upper : Option Bool) (z_margin : ℚ) : Vec3 × Vec3 :=
  let vmin : Vec3 := ⟨-dim.x / 2 + eps, -dim.y / 2 + eps, -dim.z / 2 + eps⟩
  let vmax : Vec3 := ⟨dim.x / 2 + eps, dim.y / 2 + eps, dim.z / 2 + eps⟩
  match upper with
  | some true =>
      (⟨vmin.x, vmin.y, eps⟩,
       if z_margin ≠ 0 then ⟨vmax.x, vmax.y, vmax.z - z_margin / 2⟩ else vmax)
  | some false =>
      ((if z_margin ≠ 0 then ⟨vmin.x, vmin.y, vmin.z + z_margin / 2⟩ else vmin),
       ⟨vmax.x, vmax.y, eps⟩)
  | none => (vmin, vmax)

/-- Inner loop of `_do_gen_atoms` over one node: for each atom of the
node, form `xyz = dot(abs_pos+atom.pos, M_1)` and keep `Atom(name, xyz)`
when the containment test passes. -/
def gen_node (M_1 : Mat3) (vmin vmax abs_pos : Vec3) (atoms : List AtomInNode) : List Atom :=
  atoms.filterMap fun atom =>
    let xyz := vecMulMat (vecAdd abs_pos atom.pos) M_1
    if in_box vmin vmax xyz then some ⟨atom.name, xyz⟩ else none

/-- OrthorhombicPbcModel._do_gen_atoms, lines 93-101.  The scope
collaborator (compute_scope / get_all_nodes) lives in graingen, which is
not under src/; modelled from the spec: it supplies a finite list of
(node, absolute node position) pairs enumerating every lattice
translation that can fall inside the box.  The list is a parameter
here, and `M_1` is the inverse matrix of the current unit cell. -/
def do_gen_atoms (nodes : List (Node × Vec3)) (M_1 : Mat3) (vmin vmax : Vec3) : List Atom :=
  nodes.flatMap fun nv => gen_node M_1 vmin vmax nv.2 nv.1.atoms_in_node

/-- Unit cell as used by monocryst.py: the transform matrix `M` and its
inverse `M_1` (class graingen.UnitCell, whose definition is not under
src/; only these two fields are read by monocryst.py). -/
structure UnitCell where
  M : Mat3
  M_1 : Mat3
deriving DecidableEq

/-- Modelled from the spec: `UnitCell.rotate` lives in graingen, not
under src/.  Per the spec, a UnitCell holds the lattice-vector matrix
and its inverse and supports being rotated by a given orthogonal
matrix.  With lattice vectors as rows (numpy row-vector convention),
rotating every lattice vector `v` to `v Rᵀ` maps `M` to `M Rᵀ` and
`M⁻¹` to `R M⁻¹` (for orthogonal `R` the two stay inverse to each
other).  In the source this update happens in place; here it returns
the updated cell. -/
def UnitCell.rotate (c : UnitCell) (R : Mat3) : UnitCell :=
  ⟨matMul c.M (matTranspose R), matMul R c.M_1⟩

/-- Mutable state of a RotatedMonocrystal object: target dimensions,
the optional rotation matrix, and the (mutated in place) unit cell. -/
structure RotatedMonocrystal where
  dim : Vec3
  rot_mat : Option Mat3
  unit_cell : UnitCell
deriving DecidableEq

/-- RotatedMonocrystal.generate_atoms, lines 115-125, as a state
transformer: it resets `self.atoms`, computes the box, applies
`self.unit_cell.rotate(self.rot_mat)` in place when `rot_mat` is not
None, and then runs `_do_gen_atoms`.  The scope collaborator is the
`nodes` parameter as in `do_gen_atoms`.  The returned pair is the atom
list together with the updated object state. -/
def generate_atoms (self : RotatedMonocrystal) (nodes : List (Node × Vec3))
    (upper : Option Bool) (z_margin : ℚ) : List Atom × RotatedMonocrystal :=
  let box := get_box_to_fill self.dim upper z_margin
  let cell := match self.rot_mat with
    | some R => self.unit_cell.rotate R
    | none => self.unit_cell
  (do_gen_atoms nodes cell.M_1 box.1 box.2, { self with unit_cell := cell })

/-- Observable outcome of `main`, lines 204-211.  `sys.exit()` is
called with no argument, which terminates the process with exit status
zero; with six arguments, line 209 evaluates `get_named_lattice(name)`
where no variable `name` is bound in any enclosing scope, so Python
raises NameError before any lattice is built, atoms generated, or
output written. -/
inductive MainOutcome where
  | usageExit (message : String) (exitCode : Nat)
  | nameError
deriving DecidableEq

/-- Usage text, lines 197-201 (a triple-quoted literal, reproduced
byte for byte including trailing spaces and the stray quote). -/
def usage : String :=
  "Usage: \nmonocryst.py crystal nx ny nz filename\n where crystal is one of \"si\", \"sic\", \"sic:ABABC\". \n  In the last case any polytype can be given\" \n"

/-- main, lines 204-211, on the argument vector `sys.argv` (which
includes the program name).  Wrong argument count: print usage, then
`sys.exit()` (status zero).  Otherwise the undefined global `name` is
referenced and NameError is raised. -/
def main (argv : List String) : MainOutcome :=
  if argv.length ≠ 6 then MainOutcome.usageExit usage 0
  else MainOutcome.nameError

/-- Python 2 `round`: nearest integer with halves rounded away from
zero (the source is Python 2: print statements). -/
noncomputable def pyRound (x : ℝ) : ℤ :=
  if 0 ≤ x then ⌊x + 1 / 2⌋ else -⌊-x + 1 / 2⌋

/-- Values produced by the commensuration adjustment inside
test_rotmono_adjust: the corrected angle, the corrected box edge, and
the rounded second box dimension. -/
structure AdjustResult where
  new_th : ℝ
  new_d : ℝ
  dim1 : ℝ

/-- Commensuration adjustment of test_rotmono_adjust, lines 152-162,
on inputs `a` (lattice parameter), `d = dimensions[0]`, `dim1 =
dimensions[1]` and `theta` (requested angle in radians).  Python floats
are modelled as reals; `math.asin` agrees with `Real.arcsin` on the
closed interval from -1 to 1 (outside it Python raises a domain error,
which the preconditions of the theorems below exclude). -/
noncomputable def rotmono_adjust (a d dim1 theta : ℝ) : AdjustResult :=
  let n_ := d * Real.sin theta / a
  let m_ := d / (a * Real.cos theta)
  let n : ℝ := (pyRound n_ : ℤ)
  let m : ℝ := (pyRound m_ : ℤ)
  let new_th := (1 / 2) * Real.arcsin (2 * n / m)
  let new_d := m * a * Real.cos new_th
  ⟨new_th, new_d, ((pyRound (dim1 / a) : ℤ) : ℝ) * a⟩

/-! Helper lemmas about the planned boxes. -/

/-- Whole box: closed form. -/
lemma get_box_none_eq (dim : Vec3) (m : ℚ) :
    get_box_to_fill dim none m =
      (⟨-dim.x / 2 + eps, -dim.y / 2 + eps, -dim.z / 2 + eps⟩,
       ⟨dim.x / 2 + eps, dim.y / 2 + eps, dim.z / 2 + eps⟩) := rfl

/-- Lower half box: closed form (the two branches of the `if z_margin:`
guard collapse, since adding `0 / 2` is the identity). -/
lemma get_box_lower_eq (dim : Vec3) (m : ℚ) :
    get_box_to_fill dim (some false) m =
      (⟨-dim.x / 2 + eps, -dim.y / 2 + eps, -dim.z / 2 + eps + m / 2⟩,
       ⟨dim.x / 2 + eps, dim.y / 2 + eps, eps⟩) := by
  by_cases h : m = 0
  · subst h; simp [get_box_to_fill]
  · simp [get_box_to_fill, h]

/-- Upper half box: closed form. -/
lemma get_box_upper_eq (dim : Vec3) (m : ℚ) :
    get_box_to_fill dim (some true) m =
      (⟨-dim.x / 2 + eps, -dim.y / 2 + eps, eps⟩,
       ⟨dim.x / 2 + eps, dim.y / 2 + eps, dim.z / 2 + eps - m / 2⟩) := by
  by_cases h : m = 0
  · subst h; simp [get_box_to_fill]
  · simp [get_box_to_fill, h]

/-- Pointwise partition of the whole box into the margin-0 halves:
membership in the whole box is equivalent to membership in exactly one
of the two halves. -/
lemma in_box_split_z (dim p : Vec3) :
    in_box (get_box_to_fill dim none 0).1 (get_box_to_fill dim none 0).2 p ↔
      (in_box (get_box_to_fill dim (some false) 0).1 (get_box_to_fill dim (some false) 0).2 p ∨
       in_box (get_box_to_fill dim (some true) 0).1 (get_box_to_fill dim (some true) 0).2 p) := by
  rw [get_box_none_eq dim 0, get_box_lower_eq dim 0, get_box_upper_eq dim 0]
  simp only [in_box, all_lt, all_le]
  constructor
  · rintro ⟨⟨hx, hy, hz⟩, hx2, hy2, hz2⟩
    by_cases hc : p.z ≤ eps
    · exact Or.inl ⟨⟨hx, hy, by linarith⟩, hx2, hy2, hc⟩
    · exact Or.inr ⟨⟨hx, hy, by linarith⟩, hx2, hy2, by linarith⟩
  · rintro (⟨⟨hx, hy, hz⟩, hx2, hy2, hz2⟩ | ⟨⟨hx, hy, hz⟩, hx2, hy2, hz2⟩)
    · exact ⟨⟨hx, hy, by linarith⟩, hx2, hy2, by linarith⟩
    · exact ⟨⟨hx, hy, by linarith⟩, hx2, hy2, by linarith⟩

/-- The two margin-0 halves are disjoint: the lower half demands a z
coordinate at most eps, the upper half demands one strictly above. -/
lemma in_box_halves_disjoint (dim p : Vec3) :
    ¬ (in_box (get_box_to_fill dim (some false) 0).1 (get_box_to_fill dim (some false) 0).2 p ∧
       in_box (get_box_to_fill dim (some true) 0).1 (get_box_to_fill dim (some true) 0).2 p) := by
  rw [get_box_lower_eq dim 0, get_box_upper_eq dim 0]
  simp only [in_box, all_lt, all_le]
  rintro ⟨⟨⟨_, _, _⟩, _, _, hz1⟩, ⟨_, _, hz2⟩, _, _, _⟩
  exact absurd hz1 (not_le.mpr hz2)

/-! Counting lemmas for the enumeration loop. -/

/-- One node: when a box splits pointwise into two disjoint boxes, the
kept-atom count over the node splits accordingly. -/
lemma gen_node_split (M_1 : Mat3) (abs_pos : Vec3) (wa wb la lb ua ub : Vec3)
    (hsplit : ∀ p, in_box wa wb p ↔ (in_box la lb p ∨ in_box ua ub p))
    (hdisj : ∀ p, ¬ (in_box la lb p ∧ in_box ua ub p)) (atoms : List AtomInNode) :
    (gen_node M_1 wa wb abs_pos atoms).length
      = (gen_node M_1 la lb abs_pos atoms).length
        + (gen_node M_1 ua ub abs_pos atoms).length := by
  induction atoms with
  | nil => rfl
  | cons a t ih =>
      simp only [gen_node, List.filterMap_cons] at ih ⊢
      by_cases hl : in_box la lb (vecMulMat (vecAdd abs_pos a.pos) M_1)
      · have hu : ¬ in_box ua ub (vecMulMat (vecAdd abs_pos a.pos) M_1) :=
          fun h => hdisj _ ⟨hl, h⟩
        have hw : in_box wa wb (vecMulMat (vecAdd abs_pos a.pos) M_1) :=
          (hsplit _).mpr (Or.inl hl)
        simp only [hl, hu, hw, if_pos, if_neg, if_true, if_false, ite_true, ite_false,
          List.length_cons]
        omega
      · by_cases hu : in_box ua ub (vecMulMat (vecAdd abs_pos a.pos) M_1)
        · have hw : in_box wa wb (vecMulMat (vecAdd abs_pos a.pos) M_1) :=
            (hsplit _).mpr (Or.inr hu)
          simp only [hl, hu, hw, ite_true, ite_false, List.length_cons]
          omega
        · have hw : ¬ in_box wa wb (vecMulMat (vecAdd abs_pos a.pos) M_1) :=
            fun h => ((hsplit _).mp h).elim hl hu
          simp only [hl, hu, hw, ite_true, ite_false]
          omega

/-- All nodes: the split of the previous lemma summed over the node
list. -/
lemma do_gen_atoms_split (nodes : List (Node × Vec3)) (M_1 : Mat3)
    (wa wb la lb ua ub : Vec3)
    (hsplit : ∀ p, in_box wa wb p ↔ (in_box la lb p ∨ in_box ua ub p))
    (hdisj : ∀ p, ¬ (in_box la lb p ∧ in_box ua ub p)) :
    (do_gen_atoms nodes M_1 wa wb).length
      = (do_gen_atoms nodes M_1 la lb).length + (do_gen_atoms nodes M_1 ua ub).length := by
  induction nodes with
  | nil => rfl
  | cons nv t ih =>
      simp only [do_gen_atoms, List.flatMap_cons, List.length_append] at ih ⊢
      have h := gen_node_split M_1 nv.2 wa wb la lb ua ub hsplit hdisj nv.1.atoms_in_node
      omega

/-- One node: a smaller box keeps at most as many atoms of the node. -/
lemma gen_node_mono (M_1 : Mat3) (abs_pos : Vec3) (a1 b1 a2 b2 : Vec3)
    (h : ∀ p, in_box a2 b2 p → in_box a1 b1 p) (atoms : List AtomInNode) :
    (gen_node M_1 a2 b2 abs_pos atoms).length ≤ (gen_node M_1 a1 b1 abs_pos atoms).length := by
  induction atoms with
  | nil => exact le_refl _
  | cons a t ih =>
      simp only [gen_node, List.filterMap_cons] at ih ⊢
      by_cases h2 : in_box a2 b2 (vecMulMat (vecAdd abs_pos a.pos) M_1)
      · have h1 := h _ h2
        simp only [h1, h2, ite_true, List.length_cons]
        omega
      · by_cases h1 : in_box a1 b1 (vecMulMat (vecAdd abs_pos a.pos) M_1)
        · simp only [h1, h2, ite_true, ite_false, List.length_cons]
          omega
        · simp only [h1, h2, ite_false]
          omega

/-- All nodes: a smaller box keeps at most as many atoms overall. -/
lemma do_gen_atoms_mono (nodes : List (Node × Vec3)) (M_1 : Mat3) (a1 b1 a2 b2 : Vec3)
    (h : ∀ p, in_box a2 b2 p → in_box a1 b1 p) :
    (do_gen_atoms nodes M_1 a2 b2).length ≤ (do_gen_atoms nodes M_1 a1 b1).length := by
  induction nodes with
  | nil => exact le_refl _
  | cons nv t ih =>
      simp only [do_gen_atoms, List.flatMap_cons, List.length_append] at ih ⊢
      have h2 := gen_node_mono M_1 nv.2 a1 b1 a2 b2 h nv.1.atoms_in_node
      omega

/-- C1: Partition of the crystallite at margin 0: for every candidate
node list, inverse cell matrix, and dimensions, enumerating the whole
box (upper = none), the lower half (upper = some false) and the upper
half (upper = some true), all with margin 0, yields atom counts with
count(whole) = count(lower) + count(upper); no atom lands in both
halves and none is lost. -/
theorem half_counts_partition (nodes : List (Node × Vec3)) (M_1 : Mat3) (dim : Vec3) :
    (do_gen_atoms nodes M_1 (get_box_to_fill dim none 0).1
        (get_box_to_fill dim none 0).2).length
      = (do_gen_atoms nodes M_1 (get_box_to_fill dim (some false) 0).1
            (get_box_to_fill dim (some false) 0).2).length
        + (do_gen_atoms nodes M_1 (get_box_to_fill dim (some true) 0).1
            (get_box_to_fill dim (some true) 0).2).length :=
  do_gen_atoms_split nodes M_1 _ _ _ _ _ _ (in_box_split_z dim) (in_box_halves_disjoint dim)

/-- C2: Containment test convention: an enumerated atom is kept iff on
every axis vmin < coordinate and coordinate ≤ vmax; a coordinate equal
to vmax on one axis (strictly inside on the others) is included, and a
coordinate equal to vmin on some axis is excluded.  The first conjunct
ties the predicate to the enumeration loop: every emitted atom
satisfies the test at its stored position. -/
theorem containment_convention :
    (∀ (nodes : List (Node × Vec3)) (M_1 : Mat3) (vmin vmax : Vec3) (a : Atom),
        a ∈ do_gen_atoms nodes M_1 vmin vmax → in_box vmin vmax a.pos)
  ∧ (∀ vmin vmax p : Vec3, in_box vmin vmax p ↔
        ((vmin.x < p.x ∧ p.x ≤ vmax.x) ∧ (vmin.y < p.y ∧ p.y ≤ vmax.y) ∧
         (vmin.z < p.z ∧ p.z ≤ vmax.z)))
  ∧ (∀ vmin vmax p : Vec3, p.z = vmax.z → vmin.z < p.z → vmin.x < p.x → p.x ≤ vmax.x →
        vmin.y < p.y → p.y ≤ vmax.y → in_box vmin vmax p)
  ∧ (∀ vmin vmax p : Vec3, p.x = vmin.x ∨ p.y = vmin.y ∨ p.z = vmin.z →
        ¬ in_box vmin vmax p) := by
  refine ⟨?_, ?_, ?_, ?_⟩
  · intro nodes M_1 vmin vmax a ha
    simp only [do_gen_atoms, List.mem_flatMap] at ha
    obtain ⟨nv, hnv, ha⟩ := ha
    simp only [gen_node, List.mem_filterMap] at ha
    obtain ⟨atom, hatom, heq⟩ := ha
    split at heq
    next h => cases heq; exact h
    next h => cases heq
  · intro vmin vmax p
    unfold in_box all_lt all_le
    tauto
  · intro vmin vmax p hz hzlt hx hxle hy hyle
    exact ⟨⟨hx, hy, hzlt⟩, hxle, hyle, le_of_eq hz⟩
  · rintro vmin vmax p (h | h | h) ⟨⟨h1, h2, h3⟩, _⟩
    · exact lt_irrefl _ (h ▸ h1)
    · exact lt_irrefl _ (h ▸ h2)
    · exact lt_irrefl _ (h ▸ h3)

/-- Witness for C2: the point (1/2, 1/2, 1) sits exactly on the upper
face of the unit box above the origin and is accepted; the point with
x exactly at vmin is rejected. -/
theorem containment_convention_witness :
    in_box ⟨0, 0, 0⟩ ⟨1, 1, 1⟩ ⟨1 / 2, 1 / 2, 1⟩ ∧
    ¬ in_box ⟨0, 0, 0⟩ ⟨1, 1, 1⟩ ⟨0, 1 / 2, 1 / 2⟩ :=
  ⟨containment_convention.2.2.1 ⟨0, 0, 0⟩ ⟨1, 1, 1⟩ ⟨1 / 2, 1 / 2, 1⟩ rfl (by norm_num)
      (by norm_num) (by norm_num) (by norm_num) (by norm_num),
   containment_convention.2.2.2 ⟨0, 0, 0⟩ ⟨1, 1, 1⟩ ⟨0, 1 / 2, 1 / 2⟩ (Or.inl rfl)⟩

/-- C3 counterexample: at dim = (2, 2, 2), lower half, margin 1, the
claim predicts vmax z = eps - 1/2 (cut face retracted); the code
instead leaves vmax z = eps and moves vmin z up by 1/2. -/
theorem box_margin_face_cx :
    (get_box_to_fill ⟨2, 2, 2⟩ (some false) 1).2.z ≠ eps - 1 / 2 ∧
    get_box_to_fill ⟨2, 2, 2⟩ (some false) 1 =
      (⟨-999 / 1000, -999 / 1000, -499 / 1000⟩, ⟨1001 / 1000, 1001 / 1000, 1 / 1000⟩) := by
  rw [get_box_lower_eq]
  constructor
  · simp only [eps]
    norm_num
  · simp only [Prod.mk.injEq, Vec3.mk.injEq, eps]
    norm_num

/-- C3 amended: vmin = -dim/2 + eps and vmax = dim/2 + eps with eps =
0.001 on all axes; lower sets vmax z = eps, upper sets vmin z = eps; a
margin then retracts the OUTER face of the selected half by margin/2
(vmin z += margin/2 for lower, vmax z -= margin/2 for upper), leaving
the cut face at eps. -/
theorem box_plan_characterization (dim : Vec3) (m : ℚ) :
    get_box_to_fill dim none m =
      (⟨-dim.x / 2 + eps, -dim.y / 2 + eps, -dim.z / 2 + eps⟩,
       ⟨dim.x / 2 + eps, dim.y / 2 + eps, dim.z / 2 + eps⟩)
  ∧ get_box_to_fill dim (some false) m =
      (⟨-dim.x / 2 + eps, -dim.y / 2 + eps, -dim.z / 2 + eps + m / 2⟩,
       ⟨dim.x / 2 + eps, dim.y / 2 + eps, eps⟩)
  ∧ get_box_to_fill dim (some true) m =
      (⟨-dim.x / 2 + eps, -dim.y / 2 + eps, eps⟩,
       ⟨dim.x / 2 + eps, dim.y / 2 + eps, dim.z / 2 + eps - m / 2⟩) :=
  ⟨get_box_none_eq dim m, get_box_lower_eq dim m, get_box_upper_eq dim m⟩

/-- C5: Margin monotonicity: with the candidate list, cell matrix and
dimensions fixed, a larger margin never yields a larger combined
lower + upper atom count. -/
theorem margin_monotonicity (nodes : List (Node × Vec3)) (M_1 : Mat3) (dim : Vec3)
    (m1 m2 : ℚ) (h : m1 ≤ m2) :
    (do_gen_atoms nodes M_1 (get_box_to_fill dim (some false) m2).1
        (get_box_to_fill dim (some false) m2).2).length
      + (do_gen_atoms nodes M_1 (get_box_to_fill dim (some true) m2).1
          (get_box_to_fill dim (some true) m2).2).length
    ≤ (do_gen_atoms nodes M_1 (get_box_to_fill dim (some false) m1).1
        (get_box_to_fill dim (some false) m1).2).length
      + (do_gen_atoms nodes M_1 (get_box_to_fill dim (some true) m1).1
          (get_box_to_fill dim (some true) m1).2).length := by
  have hlow : ∀ p : Vec3,
      in_box (get_box_to_fill dim (some false) m2).1
        (get_box_to_fill dim (some false) m2).2 p →
      in_box (get_box_to_fill dim (some false) m1).1
        (get_box_to_fill dim (some false) m1).2 p := by
    rw [get_box_lower_eq dim m1, get_box_lower_eq dim m2]
    rintro p ⟨⟨hx, hy, hz⟩, hle⟩
    exact ⟨⟨hx, hy, by linarith⟩, hle⟩
  have hup : ∀ p : Vec3,
      in_box (get_box_to_fill dim (some true) m2).1
        (get_box_to_fill dim (some true) m2).2 p →
      in_box (get_box_to_fill dim (some true) m1).1
        (get_box_to_fill dim (some true) m1).2 p := by
    rw [get_box_upper_eq dim m1, get_box_upper_eq dim m2]
    rintro p ⟨hlt, hx, hy, hz⟩
    exact ⟨hlt, hx, hy, by linarith⟩
  exact Nat.add_le_add (do_gen_atoms_mono nodes M_1 _ _ _ _ hlow)
    (do_gen_atoms_mono nodes M_1 _ _ _ _ hup)

/-- Candidate list with a single one-atom node at the origin, used by
concrete witnesses. -/
def demoNodes : List (Node × Vec3) := [(⟨[⟨"X", ⟨0, 0, 0⟩⟩]⟩, ⟨0, 0, 0⟩)]

/-- Witness for C5 at margins 0 ≤ 1 on a concrete one-atom candidate
list. -/
theorem margin_monotonicity_witness :
    (0 : ℚ) ≤ 1 ∧
    (do_gen_atoms demoNodes matId (get_box_to_fill ⟨2, 2, 2⟩ (some false) 1).1
        (get_box_to_fill ⟨2, 2, 2⟩ (some false) 1).2).length
      + (do_gen_atoms demoNodes matId (get_box_to_fill ⟨2, 2, 2⟩ (some true) 1).1
          (get_box_to_fill ⟨2, 2, 2⟩ (some true) 1).2).length
    ≤ (do_gen_atoms demoNodes matId (get_box_to_fill ⟨2, 2, 2⟩ (some false) 0).1
        (get_box_to_fill ⟨2, 2, 2⟩ (some false) 0).2).length
      + (do_gen_atoms demoNodes matId (get_box_to_fill ⟨2, 2, 2⟩ (some true) 0).1
          (get_box_to_fill ⟨2, 2, 2⟩ (some true) 0).2).length :=
  ⟨by norm_num, margin_monotonicity demoNodes matId ⟨2, 2, 2⟩ 0 1 (by norm_num)⟩

/-- C6 counterexample: margin 10 on dim = (2, 2, 2), lower half: the
box is returned as a value (no rejection happens anywhere in
get_box_to_fill) and vmin < vmax fails on the z axis. -/
theorem degenerate_box_cx :
    ¬ all_lt (get_box_to_fill ⟨2, 2, 2⟩ (some false) 10).1
        (get_box_to_fill ⟨2, 2, 2⟩ (some false) 10).2 ∧
    get_box_to_fill ⟨2, 2, 2⟩ (some false) 10 =
      (⟨-999 / 1000, -999 / 1000, 4001 / 1000⟩, ⟨1001 / 1000, 1001 / 1000, 1 / 1000⟩) := by
  rw [get_box_lower_eq]
  constructor
  · simp only [all_lt, Vec3.mk.injEq, eps, not_and]
    intro h1 h2
    norm_num
  · simp only [Prod.mk.injEq, Vec3.mk.injEq, eps]
    norm_num

/-- C6 amended: get_box_to_fill performs no degeneracy check: whenever
the margin is at least the z dimension, it returns (without error and
without clamping) a half box whose z interval is empty or inverted,
vmax z ≤ vmin z. -/
theorem degenerate_box_returned (dim : Vec3) (m : ℚ) (h : dim.z ≤ m) :
    (get_box_to_fill dim (some false) m).2.z ≤ (get_box_to_fill dim (some false) m).1.z ∧
    (get_box_to_fill dim (some true) m).2.z ≤ (get_box_to_fill dim (some true) m).1.z := by
  rw [get_box_lower_eq dim m, get_box_upper_eq dim m]
  exact ⟨by dsimp; linarith, by dsimp; linarith⟩

/-- Witness for C6 amended at dim = (2, 2, 2), margin 10. -/
theorem degenerate_box_returned_witness :
    (⟨2, 2, 2⟩ : Vec3).z ≤ (10 : ℚ) ∧
    (get_box_to_fill ⟨2, 2, 2⟩ (some false) 10).2.z ≤
      (get_box_to_fill ⟨2, 2, 2⟩ (some false) 10).1.z :=
  ⟨by norm_num, (degenerate_box_returned ⟨2, 2, 2⟩ 10 (by norm_num)).1⟩

/-- C7 counterexample: with a wrong argument count the program prints
the usage text and exits with status ZERO (sys.exit is called with no
argument), so no nonzero exit status is produced. -/
theorem usage_exit_cx :
    main ["monocryst.py"] = MainOutcome.usageExit usage 0 ∧
    ¬ ∃ c : Nat, c ≠ 0 ∧ main ["monocryst.py"] = MainOutcome.usageExit usage c := by
  refine ⟨rfl, ?_⟩
  rintro ⟨c, hc, he⟩
  rw [show main ["monocryst.py"] = MainOutcome.usageExit usage 0 from rfl] at he
  injection he with h1 h2
  exact hc h2.symm

/-- C7 amended: every invocation with argument count different from 6
prints the fixed usage message and exits with status zero, without
building any lattice or doing any geometry. -/
theorem usage_exit_zero (argv : List String) (h : argv.length ≠ 6) :
    main argv = MainOutcome.usageExit usage 0 := by
  unfold main
  rw [if_pos h]

/-- Witness for C7 amended at a one-word argument vector. -/
theorem usage_exit_zero_witness :
    (["monocryst.py"] : List String).length ≠ 6 ∧
    main ["monocryst.py"] = MainOutcome.usageExit usage 0 :=
  ⟨by decide, usage_exit_zero ["monocryst.py"] (by decide)⟩

/-- C9: with exactly six CLI words, main evaluates the undefined
variable name on line 209 and raises NameError before any lattice is
built, atoms generated, or output written. -/
theorem main_name_error (argv : List String) (h : argv.length = 6) :
    main argv = MainOutcome.nameError := by
  simp [main, h]

/-- Witness for C9 at a six-word argument vector. -/
theorem main_name_error_witness :
    (["monocryst.py", "sic", "1", "1", "1", "out.cfg"] : List String).length = 6 ∧
    main ["monocryst.py", "sic", "1", "1", "1", "out.cfg"] = MainOutcome.nameError :=
  ⟨rfl, main_name_error ["monocryst.py", "sic", "1", "1", "1", "out.cfg"] rfl⟩

/-- Rotation by 90 degrees about the y axis; an exact orthogonal
matrix with rational entries. -/
def demoR : Mat3 := ⟨⟨0, 0, -1⟩, ⟨0, 1, 0⟩, ⟨1, 0, 0⟩⟩

/-- Identity unit cell (simple cubic cell with lattice constant 1). -/
def demoCell : UnitCell := ⟨matId, matId⟩

/-- A RotatedMonocrystal carrying the demo rotation. -/
def demoState : RotatedMonocrystal := ⟨⟨2, 2, 2⟩, some demoR, demoCell⟩

/-- Off-center one-atom candidate node, used to observe the cumulative
rotation in the output coordinates. -/
def demoNodesOff : List (Node × Vec3) := [(⟨[⟨"X", ⟨0, 0, 0⟩⟩]⟩, ⟨1 / 2, 0, 0⟩)]

/-- C8: when rot_mat is not None, generate_atoms rotates the unit cell
in place, and again on every subsequent call: after one call the cell
is the once-rotated cell, after a second call the twice-rotated cell
(dim and rot_mat untouched), the second atom list is enumerated against
the twice-rotated cell, and on a concrete crystal the two calls return
different atom lists for identical arguments. -/
theorem rotation_cumulative :
    (∀ (self : RotatedMonocrystal) (nodes : List (Node × Vec3)) (u : Option Bool)
        (m : ℚ) (R : Mat3), self.rot_mat = some R →
        (generate_atoms self nodes u m).2
            = { self with unit_cell := self.unit_cell.rotate R }
          ∧ (generate_atoms (generate_atoms self nodes u m).2 nodes u m).2
            = { self with unit_cell := (self.unit_cell.rotate R).rotate R }
          ∧ (generate_atoms (generate_atoms self nodes u m).2 nodes u m).1
            = do_gen_atoms nodes ((self.unit_cell.rotate R).rotate R).M_1
                (get_box_to_fill self.dim u m).1 (get_box_to_fill self.dim u m).2)
  ∧ (generate_atoms demoState demoNodesOff none 0).1
      ≠ (generate_atoms (generate_atoms demoState demoNodesOff none 0).2
           demoNodesOff none 0).1 := by
  constructor
  · intro self nodes u m R h
    refine ⟨?_, ?_, ?_⟩ <;> simp [generate_atoms, h]
  · have hA : (generate_atoms demoState demoNodesOff none 0).1
        = [⟨"X", ⟨0, 0, -(1 / 2)⟩⟩] := by
      norm_num [generate_atoms, demoState, demoCell, demoNodesOff, demoR, UnitCell.rotate,
        matMul, matTranspose, matId, vecMulMat, vecAdd, do_gen_atoms, gen_node,
        get_box_to_fill, eps, in_box, all_lt, all_le, List.filterMap_cons, List.filterMap_nil,
        List.flatMap_cons, List.flatMap_nil, List.append_nil]
    have hB : (generate_atoms (generate_atoms demoState demoNodesOff none 0).2
          demoNodesOff none 0).1 = [⟨"X", ⟨-(1 / 2), 0, 0⟩⟩] := by
      norm_num [generate_atoms, demoState, demoCell, demoNodesOff, demoR, UnitCell.rotate,
        matMul, matTranspose, matId, vecMulMat, vecAdd, do_gen_atoms, gen_node,
        get_box_to_fill, eps, in_box, all_lt, all_le, List.filterMap_cons, List.filterMap_nil,
        List.flatMap_cons, List.flatMap_nil, List.append_nil]
    intro hEq
    rw [hA, hB] at hEq
    simp only [List.cons.injEq, Atom.mk.injEq, Vec3.mk.injEq] at hEq
    norm_num at hEq

/-- Witness for C8 on the concrete demo crystal: the state really holds
a rotation matrix, and one call updates the cell to its rotation. -/
theorem rotation_cumulative_witness :
    demoState.rot_mat = some demoR ∧
    (generate_atoms demoState demoNodesOff none 0).2
      = { demoState with unit_cell := demoState.unit_cell.rotate demoR } :=
  ⟨rfl, (rotation_cumulative.1 demoState demoNodesOff none 0 demoR rfl).1⟩

/-- C4: Commensurate rotation solver: with n and m the Python roundings
of d sin theta / a and d / (a cos theta), and under a > 0, m nonzero
and the asin domain condition, the adjustment returns the corrected
angle (half the arcsine of 2n/m), the corrected edge m a cos of that
angle, and the rounded second dimension; the corrected angle really
attains the commensuration equation sin of twice the angle = 2n/m. -/
theorem rotmono_adjust_formula (a d dim1 theta : ℝ) (ha : 0 < a)
    (hm : pyRound (d / (a * Real.cos theta)) ≠ 0)
    (hdom : |2 * ((pyRound (d * Real.sin theta / a) : ℤ) : ℝ)
        / ((pyRound (d / (a * Real.cos theta)) : ℤ) : ℝ)| ≤ 1) :
    (rotmono_adjust a d dim1 theta).new_th
        = 1 / 2 * Real.arcsin (2 * ((pyRound (d * Real.sin theta / a) : ℤ) : ℝ)
            / ((pyRound (d / (a * Real.cos theta)) : ℤ) : ℝ))
      ∧ (rotmono_adjust a d dim1 theta).new_d
        = ((pyRound (d / (a * Real.cos theta)) : ℤ) : ℝ) * a
            * Real.cos ((rotmono_adjust a d dim1 theta).new_th)
      ∧ (rotmono_adjust a d dim1 theta).dim1 = ((pyRound (dim1 / a) : ℤ) : ℝ) * a
      ∧ Real.sin (2 * (rotmono_adjust a d dim1 theta).new_th)
        = 2 * ((pyRound (d * Real.sin theta / a) : ℤ) : ℝ)
            / ((pyRound (d / (a * Real.cos theta)) : ℤ) : ℝ) := by
  have hth : (rotmono_adjust a d dim1 theta).new_th
      = 1 / 2 * Real.arcsin (2 * ((pyRound (d * Real.sin theta / a) : ℤ) : ℝ)
          / ((pyRound (d / (a * Real.cos theta)) : ℤ) : ℝ)) := rfl
  refine ⟨hth, rfl, rfl, ?_⟩
  rw [hth]
  rw [show (2 : ℝ) * (1 / 2 * Real.arcsin (2 * ((pyRound (d * Real.sin theta / a) : ℤ) : ℝ)
        / ((pyRound (d / (a * Real.cos theta)) : ℤ) : ℝ)))
      = Real.arcsin (2 * ((pyRound (d * Real.sin theta / a) : ℤ) : ℝ)
        / ((pyRound (d / (a * Real.cos theta)) : ℤ) : ℝ)) from by ring]
  exact Real.sin_arcsin (abs_le.mp hdom).1 (abs_le.mp hdom).2

/-- Witness for C4 at a = 1, d = 1, dim1 = 1, theta = 0: n rounds to 0,
m rounds to 1, the domain condition holds, and the rounded second
dimension is produced. -/
theorem rotmono_adjust_formula_witness :
    (0 : ℝ) < 1
  ∧ pyRound ((1 : ℝ) / (1 * Real.cos 0)) ≠ 0
  ∧ |2 * ((pyRound ((1 : ℝ) * Real.sin 0 / 1) : ℤ) : ℝ)
      / ((pyRound ((1 : ℝ) / (1 * Real.cos 0)) : ℤ) : ℝ)| ≤ 1
  ∧ (rotmono_adjust 1 1 1 0).dim1 = ((pyRound ((1 : ℝ) / 1) : ℤ) : ℝ) * 1 := by
  have hfl0 : (⌊(0 : ℝ) + 1 / 2⌋ : ℤ) = 0 :=
    Int.floor_eq_zero_iff.mpr ⟨by norm_num, by norm_num⟩
  have hfl1 : (⌊(1 : ℝ) + 1 / 2⌋ : ℤ) = 1 :=
    Int.floor_eq_iff.mpr ⟨by norm_num, by norm_num⟩
  have hn : pyRound ((1 : ℝ) * Real.sin 0 / 1) = 0 := by
    rw [show (1 : ℝ) * Real.sin 0 / 1 = 0 by rw [Real.sin_zero]; ring]
    rw [pyRound, if_pos le_rfl, hfl0]
  have hm1 : pyRound ((1 : ℝ) / (1 * Real.cos 0)) = 1 := by
    rw [show (1 : ℝ) / (1 * Real.cos 0) = 1 by rw [Real.cos_zero]; ring]
    rw [pyRound, if_pos zero_le_one, hfl1]
  have hmne : pyRound ((1 : ℝ) / (1 * Real.cos 0)) ≠ 0 := by
    rw [hm1]; exact one_ne_zero
  have hdom : |2 * ((pyRound ((1 : ℝ) * Real.sin 0 / 1) : ℤ) : ℝ)
      / ((pyRound ((1 : ℝ) / (1 * Real.cos 0)) : ℤ) : ℝ)| ≤ 1 := by
    rw [hn, hm1]; norm_num
  exact ⟨one_pos, hmne, hdom, (rotmono_adjust_formula 1 1 1 0 one_pos hmne hdom).2.2.1⟩

/-- C10: with no half selected (upper = none) the z margin argument has
no effect: the returned box equals the whole box for every margin. -/
theorem box_margin_inert_whole (dim : Vec3) (m : ℚ) :
    get_box_to_fill dim none m = get_box_to_fill dim none 0 ∧
    get_box_to_fill dim none m =
      (⟨-dim.x / 2 + eps, -dim.y / 2 + eps, -dim.z / 2 + eps⟩,
       ⟨dim.x / 2 + eps, dim.y / 2 + eps, dim.z / 2 + eps⟩) :=
  ⟨rfl, rfl⟩

end Monocryst
